import Mathlib

/-!
Verification development for the structuralcodes repository (ACI 318-19
excerpt).  The Python sources are shallowly embedded over the real numbers:
Python floats become elements of the reals, and the partial numeric
operations of the interpreter (math.sqrt on a negative argument, division by
zero, a fractional power of a negative base whose complex result later makes
a min/max comparison raise TypeError) become Except-valued functions, so that
a call either returns a value or fails with a definite error, exactly as the
interpreter either returns or raises.
-/

open scoped Classical

/-- The errors the embedded code can raise.  Each constructor records one
concrete raise site of the interpreter run:
agRequired is the explicit input check ValueError of calc_shear_strength
(message: Ag must be provided if Nu is not zero.);
mathDomainError is the ValueError (math domain error) raised by math.sqrt on
a negative argument; typeError is the TypeError raised when a complex value
(from a fractional power of a negative base) reaches a min/max comparison;
zeroDivisionError is a float division by zero; fyNotPositive, fuNotPositive
and gammaTooSmall are the explicit validation ValueErrors of fyd and fud. -/
inductive PyError where
  | agRequired
  | mathDomainError
  | typeError
  | zeroDivisionError
  | fyNotPositive
  | fuNotPositive
  | gammaTooSmall
deriving DecidableEq

/-- The dictionary returned by calc_shear_strength:
the keys Vc, Vn, phi, lambda_s of the Python result dict. -/
structure ShearResult where
  Vc : ℝ
  Vn : ℝ
  phi : ℝ
  lambda_s : ℝ

/-- Python math.sqrt: raises ValueError (math domain error) on a negative
argument, otherwise returns the nonnegative square root. -/
noncomputable def pysqrt (x : ℝ) : Except PyError ℝ :=
  if x < 0 then .error .mathDomainError else .ok (Real.sqrt x)

/-- Python float division: raises ZeroDivisionError when the denominator is
zero, otherwise returns the quotient. -/
noncomputable def pydiv (a b : ℝ) : Except PyError ℝ :=
  if b = 0 then .error .zeroDivisionError else .ok (a / b)

/-- Python x ** (1/3) as used in shear.py.  For a nonnegative base this is
the real cube root (a real power).  For a negative base the interpreter
produces a complex number, and every execution path of calc_shear_strength
then feeds that complex value into a min or max comparison, which raises
TypeError; we surface that inevitable failure at the power itself. -/
noncomputable def pycbrt (x : ℝ) : Except PyError ℝ :=
  if x < 0 then .error .typeError else .ok (x ^ ((1 : ℝ) / 3))

/-- Embedding of Ec from _concrete_material_properties.py:
if 90 <= w_c <= 160 return 33 * (w_c ** 1.5) * math.sqrt(f_c),
else return 57000 * math.sqrt(f_c).  The Python default for w_c is 145. -/
noncomputable def Ec (f_c w_c : ℝ) : Except PyError ℝ :=
  if 90 ≤ w_c ∧ w_c ≤ 160 then
    match pysqrt f_c with
    | .error e => .error e
    | .ok s => .ok (33 * w_c ^ (1.5 : ℝ) * s)
  else
    match pysqrt f_c with
    | .error e => .error e
    | .ok s => .ok (57000 * s)

/-- Embedding of f_r from _concrete_material_properties.py:
return lambda_ * 7.5 * math.sqrt(f_c).  The Python default for lambda_
is 1.0. -/
noncomputable def f_r (f_c lambda_ : ℝ) : Except PyError ℝ :=
  match pysqrt f_c with
  | .error e => .error e
  | .ok s => .ok (lambda_ * 7.5 * s)

/-- Embedding of fyd from _reinforcement_material_properties.py:
raises for fy <= 0, then for gamma_s < 1, else returns fy / gamma_s.
The Python default for gamma_s is 1.15. -/
noncomputable def fyd (fy gamma_s : ℝ) : Except PyError ℝ :=
  if fy ≤ 0 then .error .fyNotPositive
  else if gamma_s < 1 then .error .gammaTooSmall
  else .ok (fy / gamma_s)

/-- Embedding of fud from _reinforcement_material_properties.py:
raises for fu <= 0, then for gamma_s < 1, else returns fu / gamma_s. -/
noncomputable def fud (fu gamma_s : ℝ) : Except PyError ℝ :=
  if fu ≤ 0 then .error .fuNotPositive
  else if gamma_s < 1 then .error .gammaTooSmall
  else .ok (fu / gamma_s)

/-- The size-effect factor line of calc_shear_strength:
lambda_s = min(math.sqrt(2 / (1 + d / 10)), 1.0). -/
noncomputable def size_effect (d : ℝ) : Except PyError ℝ :=
  match pydiv 2 (1 + d / 10) with
  | .error e => .error e
  | .ok q =>
    match pysqrt q with
    | .error e => .error e
    | .ok s => .ok (min s 1)

/-- The branch of calc_shear_strength that computes Vc per Table 22.5.5.1
(lines 44 to 54 of shear.py).  The Python condition
(Av_min is not None and Av_min >= 0) selects the with-minimum-reinforcement
branch; its else covers both Av_min None and a negative Av_min.  In the
else branch the Python conditional expression
(Av_min / (bw * d) if Av_min else 0) sets rho_w by truthiness: a nonzero
float is truthy, None is falsy; only a negative Av_min reaches that branch
with a truthy value.  Each arm performs its operations in the source
evaluation order. -/
noncomputable def Vc_branch (f_c bw d ls lambda_concrete : ℝ)
    (Av_min : Option ℝ) : Except PyError ℝ :=
  match Av_min with
  | some a =>
    if 0 ≤ a then
      match pysqrt f_c with
      | .error e => .error e
      | .ok sf =>
        match pydiv a (bw * d) with
        | .error e => .error e
        | .ok r =>
          match pycbrt r with
          | .error e => .error e
          | .ok c =>
            .ok (max (2 * lambda_concrete * sf * bw * d)
              (8 * lambda_concrete * c * sf * bw * d))
    else
      match pydiv a (bw * d) with
      | .error e => .error e
      | .ok r =>
        match pycbrt r with
        | .error e => .error e
        | .ok c =>
          match pysqrt f_c with
          | .error e => .error e
          | .ok sf => .ok (8 * ls * lambda_concrete * c * sf * bw * d)
  | none =>
    match pycbrt 0 with
    | .error e => .error e
    | .ok c =>
      match pysqrt f_c with
      | .error e => .error e
      | .ok sf => .ok (8 * ls * lambda_concrete * c * sf * bw * d)

/-- The axial-load term of calc_shear_strength:
Nu_term = min(Nu / (6 * Ag), 0.05 * f_c) if Nu and Ag else 0.
The Python condition is by truthiness: Nu nonzero, Ag not None and nonzero.
When it holds, Ag is nonzero, so the division cannot raise. -/
noncomputable def nu_term (f_c Nu : ℝ) (Ag : Option ℝ) : ℝ :=
  match Ag with
  | some ag => if Nu ≠ 0 ∧ ag ≠ 0 then min (Nu / (6 * ag)) (0.05 * f_c) else 0
  | none => 0

/-- Embedding of calc_shear_strength from shear.py.  Steps, in source order:
the explicit input check (raises agRequired when Nu is nonzero and Ag is
None); the size-effect factor; the Vc branch of Table 22.5.5.1; the
axial-load adjustment; the upper-bound clamp
Vc = min(Vc, 5 * lambda_concrete * math.sqrt(f_c) * bw * d); the default
phi = 0.75 when phi is None; and the result dict with Vn = phi * Vc.
The clamp line of the source calls math.sqrt(f_c) again; every path that
reaches it has already evaluated math.sqrt(f_c) successfully inside the Vc
branch, so the repeated call is modelled by the same pysqrt value. -/
noncomputable def calc_shear_strength (f_c bw d Nu : ℝ) (Ag Av_min : Option ℝ)
    (lambda_concrete : ℝ) (phi : Option ℝ) : Except PyError ShearResult :=
  if Nu ≠ 0 ∧ Ag = none then .error .agRequired
  else
    match size_effect d with
    | .error e => .error e
    | .ok ls =>
      match Vc_branch f_c bw d ls lambda_concrete Av_min with
      | .error e => .error e
      | .ok Vc0 =>
        match pysqrt f_c with
        | .error e => .error e
        | .ok sf =>
          let Vc := min (Vc0 + nu_term f_c Nu Ag * bw * d)
            (5 * lambda_concrete * sf * bw * d)
          let phi_v := phi.getD 0.75
          .ok ⟨Vc, phi_v * Vc, phi_v, ls⟩

/-- The value of the size-effect factor as a total function of d, defined for
every d with 1 + d / 10 positive; on such d, size_effect returns it. -/
noncomputable def lambda_s_val (d : ℝ) : ℝ :=
  min (Real.sqrt (2 / (1 + d / 10))) 1

/-- Written from the words of the spec (step 2, with-minimum branch):
Vc_a = 2 lambda sqrt(fc) bw d, Vc_b = 8 lambda (Av_min/(bw d))^(1/3)
sqrt(fc) bw d, and Vc = max(Vc_a, Vc_b).  Note the absence of the
size-effect factor in this branch. -/
noncomputable def spec_Vc_with_min (f_c bw d lambda_concrete a : ℝ) : ℝ :=
  max (2 * lambda_concrete * Real.sqrt f_c * bw * d)
    (8 * lambda_concrete * ((a / (bw * d)) ^ ((1 : ℝ) / 3)) *
      Real.sqrt f_c * bw * d)

/-- Written from the words of the spec (step 2, without-minimum branch):
rho_w = Av_min/(bw d) if Av_min is truthy, else 0. -/
noncomputable def spec_rho_w (bw d : ℝ) (Av_min : Option ℝ) : ℝ :=
  match Av_min with
  | some a => if a ≠ 0 then a / (bw * d) else 0
  | none => 0

/-- Written from the words of the spec (step 2, without-minimum branch):
Vc = 8 lambda_s lambda rho_w^(1/3) sqrt(fc) bw d. -/
noncomputable def spec_Vc_no_min (f_c bw d ls lambda_concrete : ℝ)
    (Av_min : Option ℝ) : ℝ :=
  8 * ls * lambda_concrete * (spec_rho_w bw d Av_min ^ ((1 : ℝ) / 3)) *
    Real.sqrt f_c * bw * d

/-- Modelled from the spec: the code-module primitive fct(fc) called by the
fct getter of ConcreteACI318_19 is not among the sources (only Ec is
defined in _concrete_material_properties.py).  The spec names the tensile
strength primitive as the capability fct(fc) and gives the tensile-strength
formula of section 4.1 as the modulus of rupture with the normal-weight
default, 7.5 sqrt(fc). -/
noncomputable def fct_model (fc : ℝ) : ℝ := 7.5 * Real.sqrt fc

/-- Modelled from the spec: the code-module primitive eps_cu(fc) called by
the eps_cu getter of ConcreteACI318_19 is not among the sources.  The spec
describes it as the ultimate compressive strain, typically around 0.003,
with no dependence on fc spelled out. -/
noncomputable def eps_cu_model (_fc : ℝ) : ℝ := 0.003

/-- The backing field _Ec of the facade: None when uncomputed, some v when
cached or overridden. -/
abbrev Cell := Option ℝ

/-- The Ec getter of ConcreteACI318_19: if the backing field is None it
stores aci318_19.Ec(fc) (with the default unit weight 145) and returns it;
otherwise it returns the stored value.  Returns the read value together
with the backing field after the read. -/
noncomputable def Ec_read (fc : ℝ) (s : Cell) : Except PyError (ℝ × Cell) :=
  match s with
  | none =>
    match Ec fc 145 with
    | .error e => .error e
    | .ok v => .ok (v, some v)
  | some v => .ok (v, some v)

/-- The Ec setter of ConcreteACI318_19: stores abs(value), discarding the
previous backing field. -/
noncomputable def Ec_write (v : ℝ) (_s : Cell) : Cell := some |v|

/-- The fct getter of ConcreteACI318_19, same shape as the Ec getter, with
the spec-modelled primitive. -/
noncomputable def fct_read (fc : ℝ) (s : Cell) : ℝ × Cell :=
  match s with
  | none => (fct_model fc, some (fct_model fc))
  | some v => (v, some v)

/-- The fct setter of ConcreteACI318_19: stores abs(value). -/
noncomputable def fct_write (v : ℝ) (_s : Cell) : Cell := some |v|

/-- The eps_cu getter of ConcreteACI318_19.  The source line is
self._eps_cu = self._eps_cu or aci318_19.eps_cu(self._fc), an or by Python
truthiness: when the backing field is None or stores the float 0.0 it is
falsy, so the getter recomputes and overwrites it; otherwise the stored
value is returned unchanged. -/
noncomputable def eps_cu_read (fc : ℝ) (s : Cell) : ℝ × Cell :=
  match s with
  | none => (eps_cu_model fc, some (eps_cu_model fc))
  | some v =>
    if v = 0 then (eps_cu_model fc, some (eps_cu_model fc))
    else (v, some v)

/-- The eps_cu setter of ConcreteACI318_19: stores the value unchanged
(unlike the Ec and fct setters, no abs is applied). -/
noncomputable def eps_cu_write (v : ℝ) (_s : Cell) : Cell := some v

/-! ### Helper lemmas about the partial primitives -/

lemma ok_of_pysqrt {x y : ℝ} (h : pysqrt x = .ok y) :
    0 ≤ x ∧ y = Real.sqrt x := by
  unfold pysqrt at h
  by_cases hx : x < 0
  · rw [if_pos hx] at h; exact absurd h (by simp)
  · rw [if_neg hx] at h
    exact ⟨le_of_not_lt hx, ((Except.ok.injEq _ _).mp h).symm⟩

lemma pysqrt_ok {x : ℝ} (h : 0 ≤ x) : pysqrt x = .ok (Real.sqrt x) := by
  unfold pysqrt; rw [if_neg (not_lt.mpr h)]

lemma pysqrt_err {x : ℝ} (h : x < 0) : pysqrt x = .error .mathDomainError := by
  unfold pysqrt; rw [if_pos h]

lemma error_of_pysqrt {x : ℝ} {e : PyError} (h : pysqrt x = .error e) :
    e = .mathDomainError := by
  unfold pysqrt at h
  by_cases hx : x < 0
  · rw [if_pos hx] at h; exact ((Except.error.injEq _ _).mp h).symm
  · rw [if_neg hx] at h; exact absurd h (by simp)

lemma pydiv_ok {a b : ℝ} (h : b ≠ 0) : pydiv a b = .ok (a / b) := by
  unfold pydiv; rw [if_neg h]

lemma error_of_pydiv {a b : ℝ} {e : PyError} (h : pydiv a b = .error e) :
    e = .zeroDivisionError := by
  unfold pydiv at h
  by_cases hb : b = 0
  · rw [if_pos hb] at h; exact ((Except.error.injEq _ _).mp h).symm
  · rw [if_neg hb] at h; exact absurd h (by simp)

lemma ok_of_pycbrt {x y : ℝ} (h : pycbrt x = .ok y) :
    0 ≤ x ∧ y = x ^ ((1 : ℝ) / 3) := by
  unfold pycbrt at h
  by_cases hx : x < 0
  · rw [if_pos hx] at h; exact absurd h (by simp)
  · rw [if_neg hx] at h
    exact ⟨le_of_not_lt hx, ((Except.ok.injEq _ _).mp h).symm⟩

lemma pycbrt_ok {x : ℝ} (h : 0 ≤ x) : pycbrt x = .ok (x ^ ((1 : ℝ) / 3)) := by
  unfold pycbrt; rw [if_neg (not_lt.mpr h)]

lemma error_of_pycbrt {x : ℝ} {e : PyError} (h : pycbrt x = .error e) :
    e = .typeError := by
  unfold pycbrt at h
  by_cases hx : x < 0
  · rw [if_pos hx] at h; exact ((Except.error.injEq _ _).mp h).symm
  · rw [if_neg hx] at h; exact absurd h (by simp)

/-! ### Helper lemmas about the shear engine -/

lemma size_effect_ok {d : ℝ} (hd : 0 < d) :
    size_effect d = .ok (lambda_s_val d) := by
  have hden : (1 : ℝ) + d / 10 > 0 := by linarith
  have hq : (0 : ℝ) ≤ 2 / (1 + d / 10) := by positivity
  unfold size_effect
  rw [pydiv_ok (ne_of_gt hden)]
  dsimp only
  rw [pysqrt_ok hq]
  rfl

lemma error_of_size_effect {d : ℝ} {e : PyError}
    (h : size_effect d = .error e) :
    e = .zeroDivisionError ∨ e = .mathDomainError := by
  unfold size_effect at h
  cases hq : pydiv 2 (1 + d / 10) with
  | error e2 =>
    rw [hq] at h; dsimp only at h
    have h2 : e2 = e := (Except.error.injEq _ _).mp h
    exact Or.inl (h2 ▸ error_of_pydiv hq)
  | ok q =>
    rw [hq] at h; dsimp only at h
    cases hs : pysqrt q with
    | error e3 =>
      rw [hs] at h; dsimp only at h
      have h3 : e3 = e := (Except.error.injEq _ _).mp h
      exact Or.inr (h3 ▸ error_of_pysqrt hs)
    | ok s => rw [hs] at h; exact absurd h (by simp)

lemma error_of_Vc_branch {f_c bw d ls lc : ℝ} {Av : Option ℝ} {e : PyError}
    (h : Vc_branch f_c bw d ls lc Av = .error e) : e ≠ .agRequired := by
  unfold Vc_branch at h
  cases Av with
  | none =>
    dsimp only at h
    cases hc : pycbrt 0 with
    | error e2 =>
      rw [hc] at h; dsimp only at h
      have h2 : e2 = e := (Except.error.injEq _ _).mp h
      rw [← h2, error_of_pycbrt hc]; simp
    | ok c =>
      rw [hc] at h; dsimp only at h
      cases hs : pysqrt f_c with
      | error e3 =>
        rw [hs] at h; dsimp only at h
        have h3 : e3 = e := (Except.error.injEq _ _).mp h
        rw [← h3, error_of_pysqrt hs]; simp
      | ok s => rw [hs] at h; exact absurd h (by simp)
  | some a =>
    dsimp only at h
    by_cases ha : 0 ≤ a
    · rw [if_pos ha] at h
      cases hs : pysqrt f_c with
      | error e2 =>
        rw [hs] at h; dsimp only at h
        have h2 : e2 = e := (Except.error.injEq _ _).mp h
        rw [← h2, error_of_pysqrt hs]; simp
      | ok s =>
        rw [hs] at h; dsimp only at h
        cases hr : pydiv a (bw * d) with
        | error e3 =>
          rw [hr] at h; dsimp only at h
          have h3 : e3 = e := (Except.error.injEq _ _).mp h
          rw [← h3, error_of_pydiv hr]; simp
        | ok r =>
          rw [hr] at h; dsimp only at h
          cases hcb : pycbrt r with
          | error e4 =>
            rw [hcb] at h; dsimp only at h
            have h4 : e4 = e := (Except.error.injEq _ _).mp h
            rw [← h4, error_of_pycbrt hcb]; simp
          | ok c => rw [hcb] at h; exact absurd h (by simp)
    · rw [if_neg ha] at h
      cases hr : pydiv a (bw * d) with
      | error e2 =>
        rw [hr] at h; dsimp only at h
        have h2 : e2 = e := (Except.error.injEq _ _).mp h
        rw [← h2, error_of_pydiv hr]; simp
      | ok r =>
        rw [hr] at h; dsimp only at h
        cases hcb : pycbrt r with
        | error e3 =>
          rw [hcb] at h; dsimp only at h
          have h3 : e3 = e := (Except.error.injEq _ _).mp h
          rw [← h3, error_of_pycbrt hcb]; simp
        | ok c =>
          rw [hcb] at h; dsimp only at h
          cases hs : pysqrt f_c with
          | error e4 =>
            rw [hs] at h; dsimp only at h
            have h4 : e4 = e := (Except.error.injEq _ _).mp h
            rw [← h4, error_of_pysqrt hs]; simp
          | ok s => rw [hs] at h; exact absurd h (by simp)

/-- The final assembly step of calc_shear_strength: axial adjustment, clamp,
default phi, and the result dict. -/
noncomputable def assemble (f_c bw d Nu : ℝ) (Ag : Option ℝ) (lc : ℝ)
    (phi : Option ℝ) (ls Vc0 : ℝ) : ShearResult :=
  let Vc := min (Vc0 + nu_term f_c Nu Ag * bw * d)
    (5 * lc * Real.sqrt f_c * bw * d)
  ⟨Vc, (phi.getD 0.75) * Vc, phi.getD 0.75, ls⟩

lemma calc_ok_elim {f_c bw d Nu lc : ℝ} {Ag Av : Option ℝ} {phi : Option ℝ}
    {r : ShearResult}
    (h : calc_shear_strength f_c bw d Nu Ag Av lc phi = .ok r) :
    ¬(Nu ≠ 0 ∧ Ag = none) ∧ 0 ≤ f_c ∧
      ∃ ls Vc0, size_effect d = .ok ls ∧
        Vc_branch f_c bw d ls lc Av = .ok Vc0 ∧
        r = assemble f_c bw d Nu Ag lc phi ls Vc0 := by
  unfold calc_shear_strength at h
  by_cases hc : Nu ≠ 0 ∧ Ag = none
  · rw [if_pos hc] at h; exact absurd h (by simp)
  · rw [if_neg hc] at h
    cases hse : size_effect d with
    | error e => rw [hse] at h; exact absurd h (by simp)
    | ok ls =>
      rw [hse] at h; dsimp only at h
      cases hvb : Vc_branch f_c bw d ls lc Av with
      | error e => rw [hvb] at h; exact absurd h (by simp)
      | ok Vc0 =>
        rw [hvb] at h; dsimp only at h
        cases hsf : pysqrt f_c with
        | error e => rw [hsf] at h; exact absurd h (by simp)
        | ok sf =>
          rw [hsf] at h; dsimp only at h
          obtain ⟨hfc, rfl⟩ := ok_of_pysqrt hsf
          refine ⟨hc, hfc, ls, Vc0, rfl, hvb, ?_⟩
          have h2 := (Except.ok.injEq _ _).mp h
          rw [← h2]; rfl

lemma calc_ok_intro {f_c bw d Nu lc : ℝ} {Ag Av : Option ℝ} {phi : Option ℝ}
    {ls Vc0 : ℝ}
    (hc : ¬(Nu ≠ 0 ∧ Ag = none)) (hfc : 0 ≤ f_c)
    (hse : size_effect d = .ok ls)
    (hvb : Vc_branch f_c bw d ls lc Av = .ok Vc0) :
    calc_shear_strength f_c bw d Nu Ag Av lc phi =
      .ok (assemble f_c bw d Nu Ag lc phi ls Vc0) := by
  unfold calc_shear_strength
  rw [if_neg hc, hse]
  dsimp only
  rw [hvb]
  dsimp only
  rw [pysqrt_ok hfc]
  rfl

lemma Vc_branch_none {f_c bw d ls lc : ℝ} (hfc : 0 ≤ f_c) :
    Vc_branch f_c bw d ls lc none = .ok 0 := by
  unfold Vc_branch
  rw [pycbrt_ok le_rfl]
  dsimp only
  rw [pysqrt_ok hfc]
  dsimp only
  rw [Real.zero_rpow (by norm_num : ((1 : ℝ) / 3) ≠ 0)]
  norm_num

lemma Vc_branch_some_nonneg {f_c bw d ls lc a : ℝ} (ha : 0 ≤ a)
    (hfc : 0 ≤ f_c) (hne : bw * d ≠ 0) (hq : 0 ≤ a / (bw * d)) :
    Vc_branch f_c bw d ls lc (some a) =
      .ok (max (2 * lc * Real.sqrt f_c * bw * d)
        (8 * lc * ((a / (bw * d)) ^ ((1 : ℝ) / 3)) *
          Real.sqrt f_c * bw * d)) := by
  unfold Vc_branch
  dsimp only
  rw [if_pos ha, pysqrt_ok hfc]
  dsimp only
  rw [pydiv_ok hne]
  dsimp only
  rw [pycbrt_ok hq]

/-! ### Properties of the size-effect value -/

lemma lambda_s_val_pos {d : ℝ} (hd : 0 < d) : 0 < lambda_s_val d := by
  unfold lambda_s_val
  have h2 : (0 : ℝ) < 2 / (1 + d / 10) := by positivity
  exact lt_min (Real.sqrt_pos.mpr h2) one_pos

lemma lambda_s_val_le_one (d : ℝ) : lambda_s_val d ≤ 1 := min_le_right _ _

lemma lambda_s_val_eq_sqrt {d : ℝ} (hd : 10 ≤ d) :
    lambda_s_val d = Real.sqrt (2 / (1 + d / 10)) := by
  unfold lambda_s_val
  refine min_eq_left ?_
  have hden : (0 : ℝ) < 1 + d / 10 := by linarith
  calc Real.sqrt (2 / (1 + d / 10)) ≤ Real.sqrt 1 := by
        apply Real.sqrt_le_sqrt
        rw [div_le_one hden]
        linarith
    _ = 1 := Real.sqrt_one

lemma lambda_s_val_eq_one {d : ℝ} (hd0 : 0 < d) (hd : d ≤ 10) :
    lambda_s_val d = 1 := by
  unfold lambda_s_val
  refine min_eq_right ?_
  rw [Real.le_sqrt' one_pos]
  have hden : (0 : ℝ) < 1 + d / 10 := by linarith
  rw [one_pow, le_div_iff₀ hden]
  linarith

lemma lambda_s_val_strict_anti {d1 d2 : ℝ} (h1 : 10 ≤ d1) (h2 : d1 < d2) :
    lambda_s_val d2 < lambda_s_val d1 := by
  rw [lambda_s_val_eq_sqrt h1, lambda_s_val_eq_sqrt (by linarith)]
  have hden2 : (0 : ℝ) < 1 + d2 / 10 := by linarith
  have hden1 : (0 : ℝ) < 1 + d1 / 10 := by linarith
  apply Real.sqrt_lt_sqrt (le_of_lt (div_pos two_pos hden2))
  apply div_lt_div_of_pos_left (by norm_num) hden1
  linarith

lemma lambda_s_val_forty_bounds :
    632 / 1000 < lambda_s_val 40 ∧ lambda_s_val 40 < 633 / 1000 := by
  have h : lambda_s_val 40 = Real.sqrt (2 / 5) := by
    rw [lambda_s_val_eq_sqrt (by norm_num)]
    norm_num
  constructor
  · rw [h, Real.lt_sqrt (by norm_num)]
    norm_num
  · rw [h, Real.sqrt_lt' (by norm_num)]
    norm_num

/-- A reference run: Av_min omitted, no axial load, normal-weight concrete,
default phi.  The reinforcement ratio defaults to zero, so Vc = Vn = 0. -/
lemma calc_ref_ok :
    calc_shear_strength 4000 12 20 0 none none 1 none =
      .ok ⟨0, 0, 0.75, lambda_s_val 20⟩ := by
  have h : calc_shear_strength 4000 12 20 0 none none 1 none =
      .ok (assemble 4000 12 20 0 none 1 none (lambda_s_val 20) 0) :=
    calc_ok_intro (by simp) (by norm_num) (size_effect_ok (by norm_num))
      (Vc_branch_none (by norm_num))
  rw [h]
  unfold assemble
  simp only [nu_term, Option.getD]
  norm_num

/-- C1: whenever calc_shear_strength returns a result, the Vc field of that
result is at most 5 * lambda_concrete * sqrt(f_c) * bw * d, whichever branch
of step 2 was taken and whatever the axial-load adjustment added: the final
clamp takes the minimum with that ceiling. -/
theorem C1_clamp_invariant (f_c bw d Nu : ℝ) (Ag Av_min : Option ℝ)
    (lambda_concrete : ℝ) (phi : Option ℝ) (r : ShearResult)
    (h : calc_shear_strength f_c bw d Nu Ag Av_min lambda_concrete phi =
      .ok r) :
    r.Vc ≤ 5 * lambda_concrete * Real.sqrt f_c * bw * d := by
  obtain ⟨-, -, ls, Vc0, -, -, rfl⟩ := calc_ok_elim h
  exact min_le_right _ _

/-- Witness for C1 at a concrete input. -/
theorem C1_clamp_invariant_witness :
    calc_shear_strength 4000 12 20 0 none none 1 none =
      .ok ⟨0, 0, 0.75, lambda_s_val 20⟩ ∧
    (⟨0, 0, 0.75, lambda_s_val 20⟩ : ShearResult).Vc ≤
      5 * 1 * Real.sqrt 4000 * 12 * 20 :=
  ⟨calc_ref_ok, C1_clamp_invariant 4000 12 20 0 none none 1 none _ calc_ref_ok⟩

/-- C3: calc_shear_strength fails with its validation error (the explicit
ValueError of the input check) exactly when Nu is nonzero and Ag is omitted;
since the embedding returns Except, no partial result accompanies the error;
and with Nu = 0 the omission of Ag is not an error: a call with Nu = 0 and
Ag omitted succeeds.  (Out-of-domain numeric inputs can make the function
fail with a different error, a math domain error from math.sqrt, which is
not the validation error of the input check.) -/
theorem C3_validation_error :
    (∀ f_c bw d Nu lc : ℝ, ∀ Ag Av_min phi : Option ℝ,
      calc_shear_strength f_c bw d Nu Ag Av_min lc phi =
          .error .agRequired ↔ (Nu ≠ 0 ∧ Ag = none)) ∧
    (∃ r, calc_shear_strength 4000 12 20 0 none none 1 none = .ok r) := by
  constructor
  · intro f_c bw d Nu lc Ag Av_min phi
    constructor
    · intro h
      by_cases hc : Nu ≠ 0 ∧ Ag = none
      · exact hc
      · exfalso
        unfold calc_shear_strength at h
        rw [if_neg hc] at h
        cases hse : size_effect d with
        | error e =>
          rw [hse] at h; dsimp only at h
          have h2 : e = .agRequired := (Except.error.injEq _ _).mp h
          rcases error_of_size_effect hse with h3 | h3 <;>
            rw [h3] at h2 <;> exact absurd h2 (by simp)
        | ok ls =>
          rw [hse] at h; dsimp only at h
          cases hvb : Vc_branch f_c bw d ls lc Av_min with
          | error e =>
            rw [hvb] at h; dsimp only at h
            exact error_of_Vc_branch hvb ((Except.error.injEq _ _).mp h)
          | ok Vc0 =>
            rw [hvb] at h; dsimp only at h
            cases hsf : pysqrt f_c with
            | error e =>
              rw [hsf] at h; dsimp only at h
              have h2 : e = .agRequired := (Except.error.injEq _ _).mp h
              have h3 := error_of_pysqrt hsf
              rw [h2] at h3
              exact absurd h3 (by simp)
            | ok sf =>
              rw [hsf] at h; dsimp only at h
              exact absurd h (by simp)
    · rintro ⟨hNu, hAg⟩
      unfold calc_shear_strength
      rw [if_pos ⟨hNu, hAg⟩]
  · exact ⟨_, calc_ref_ok⟩

/-- Witness for C3: a concrete call with Nu nonzero and Ag omitted fails
with the validation error. -/
theorem C3_validation_error_witness :
    calc_shear_strength 4000 12 20 100 none none 1 none =
      .error .agRequired :=
  (C3_validation_error.1 4000 12 20 100 1 none none none).mpr
    ⟨by norm_num, rfl⟩

/-- C10: with f_c, bw, d positive, omitting Av_min gives Vc = Vn = 0 (the
reinforcement ratio defaults to 0 and its cube root is 0), while an explicit
Av_min = 0 takes the with-minimum branch and gives
Vc = 2 * sqrt(f_c) * bw * d (with the default lambda_concrete = 1); the two
calls give different Vc. -/
theorem C10_omitted_vs_zero (f_c bw d : ℝ) (hf : 0 < f_c) (hb : 0 < bw)
    (hd : 0 < d) :
    calc_shear_strength f_c bw d 0 none none 1 none =
      .ok ⟨0, 0, 0.75, lambda_s_val d⟩ ∧
    calc_shear_strength f_c bw d 0 none (some 0) 1 none =
      .ok ⟨2 * Real.sqrt f_c * bw * d,
        0.75 * (2 * Real.sqrt f_c * bw * d), 0.75, lambda_s_val d⟩ ∧
    (0 : ℝ) ≠ 2 * Real.sqrt f_c * bw * d := by
  have hsq : 0 < Real.sqrt f_c := Real.sqrt_pos.mpr hf
  refine ⟨?_, ?_, ?_⟩
  · have h : calc_shear_strength f_c bw d 0 none none 1 none =
        .ok (assemble f_c bw d 0 none 1 none (lambda_s_val d) 0) :=
      calc_ok_intro (by simp) (le_of_lt hf) (size_effect_ok hd)
        (Vc_branch_none (le_of_lt hf))
    rw [h]
    unfold assemble
    simp only [nu_term, Option.getD]
    norm_num
    positivity
  · have hbd : bw * d ≠ 0 := ne_of_gt (mul_pos hb hd)
    have h : calc_shear_strength f_c bw d 0 none (some 0) 1 none =
        .ok (assemble f_c bw d 0 none 1 none (lambda_s_val d)
          (max (2 * 1 * Real.sqrt f_c * bw * d)
            (8 * 1 * (((0 : ℝ) / (bw * d)) ^ ((1 : ℝ) / 3)) *
              Real.sqrt f_c * bw * d))) :=
      calc_ok_intro (by simp) (le_of_lt hf) (size_effect_ok hd)
        (Vc_branch_some_nonneg (le_refl (0 : ℝ)) (le_of_lt hf) hbd (by simp))
    rw [h]
    unfold assemble
    simp only [nu_term, Option.getD]
    rw [zero_div, Real.zero_rpow (by norm_num : ((1 : ℝ) / 3) ≠ 0)]
    norm_num
    rw [max_eq_left (by positivity)]
    rw [min_eq_left (by nlinarith [mul_pos (mul_pos hsq hb) hd])]
  · exact ne_of_lt (by positivity)

/-- Witness for C10 at a concrete input. -/
theorem C10_omitted_vs_zero_witness :
    (0 : ℝ) < 4000 ∧ (0 : ℝ) < 12 ∧ (0 : ℝ) < 20 ∧
      (0 : ℝ) ≠ 2 * Real.sqrt 4000 * 12 * 20 :=
  ⟨by norm_num, by norm_num, by norm_num,
    (C10_omitted_vs_zero 4000 12 20 (by norm_num) (by norm_num)
      (by norm_num)).2.2⟩

/-! ### Inversion lemmas for the Vc branch -/

lemma ok_of_pydiv {a b r : ℝ} (h : pydiv a b = .ok r) :
    b ≠ 0 ∧ r = a / b := by
  unfold pydiv at h
  by_cases hb : b = 0
  · rw [if_pos hb] at h; exact absurd h (by simp)
  · rw [if_neg hb] at h
    exact ⟨hb, ((Except.ok.injEq _ _).mp h).symm⟩

lemma Vc_branch_none_elim {f_c bw d ls lc v : ℝ}
    (h : Vc_branch f_c bw d ls lc none = .ok v) :
    0 ≤ f_c ∧
      v = 8 * ls * lc * ((0 : ℝ) ^ ((1 : ℝ) / 3)) *
        Real.sqrt f_c * bw * d := by
  unfold Vc_branch at h
  dsimp only at h
  rw [pycbrt_ok le_rfl] at h
  dsimp only at h
  cases hs : pysqrt f_c with
  | error e => rw [hs] at h; exact absurd h (by simp)
  | ok sf =>
    rw [hs] at h; dsimp only at h
    obtain ⟨hfc, rfl⟩ := ok_of_pysqrt hs
    exact ⟨hfc, ((Except.ok.injEq _ _).mp h).symm⟩

lemma Vc_branch_some_nonneg_elim {f_c bw d ls lc a v : ℝ} (ha : 0 ≤ a)
    (h : Vc_branch f_c bw d ls lc (some a) = .ok v) :
    0 ≤ f_c ∧ bw * d ≠ 0 ∧
      v = max (2 * lc * Real.sqrt f_c * bw * d)
        (8 * lc * ((a / (bw * d)) ^ ((1 : ℝ) / 3)) *
          Real.sqrt f_c * bw * d) := by
  unfold Vc_branch at h
  dsimp only at h
  rw [if_pos ha] at h
  cases hs : pysqrt f_c with
  | error e => rw [hs] at h; exact absurd h (by simp)
  | ok sf =>
    rw [hs] at h; dsimp only at h
    obtain ⟨hfc, rfl⟩ := ok_of_pysqrt hs
    cases hr : pydiv a (bw * d) with
    | error e => rw [hr] at h; exact absurd h (by simp)
    | ok r =>
      rw [hr] at h; dsimp only at h
      obtain ⟨hne, rfl⟩ := ok_of_pydiv hr
      cases hcb : pycbrt (a / (bw * d)) with
      | error e => rw [hcb] at h; exact absurd h (by simp)
      | ok c =>
        rw [hcb] at h; dsimp only at h
        obtain ⟨-, rfl⟩ := ok_of_pycbrt hcb
        exact ⟨hfc, hne, ((Except.ok.injEq _ _).mp h).symm⟩

lemma Vc_branch_some_neg_elim {f_c bw d ls lc a v : ℝ} (ha : a < 0)
    (h : Vc_branch f_c bw d ls lc (some a) = .ok v) :
    0 ≤ f_c ∧ bw * d ≠ 0 ∧
      v = 8 * ls * lc * ((a / (bw * d)) ^ ((1 : ℝ) / 3)) *
        Real.sqrt f_c * bw * d := by
  unfold Vc_branch at h
  dsimp only at h
  rw [if_neg (not_le.mpr ha)] at h
  cases hr : pydiv a (bw * d) with
  | error e => rw [hr] at h; exact absurd h (by simp)
  | ok r =>
    rw [hr] at h; dsimp only at h
    obtain ⟨hne, rfl⟩ := ok_of_pydiv hr
    cases hcb : pycbrt (a / (bw * d)) with
    | error e => rw [hcb] at h; exact absurd h (by simp)
    | ok c =>
      rw [hcb] at h; dsimp only at h
      obtain ⟨-, rfl⟩ := ok_of_pycbrt hcb
      cases hs : pysqrt f_c with
      | error e => rw [hs] at h; exact absurd h (by simp)
      | ok sf =>
        rw [hs] at h; dsimp only at h
        obtain ⟨hfc, rfl⟩ := ok_of_pysqrt hs
        exact ⟨hfc, hne, ((Except.ok.injEq _ _).mp h).symm⟩

/-- C2: on every successful run of the Vc branch of calc_shear_strength
(the value of Vc before the axial adjustment and the clamp): when Av_min is
supplied and nonnegative (including an explicit 0), the result is the larger
of Vc_a = 2 lambda sqrt(fc) bw d and
Vc_b = 8 lambda (Av_min/(bw d))^(1/3) sqrt(fc) bw d, with no size-effect
factor; otherwise the result is 8 lambda_s lambda rho_w^(1/3) sqrt(fc) bw d,
where rho_w is Av_min/(bw d) when Av_min is truthy and 0 otherwise.  Only
the without-minimum branch carries the size-effect factor ls: the with-
minimum conclusion does not depend on ls at all. -/
theorem C2_branch_selection (f_c bw d ls lc : ℝ) (Av_min : Option ℝ) (v : ℝ)
    (h : Vc_branch f_c bw d ls lc Av_min = .ok v) :
    (∀ a, Av_min = some a → 0 ≤ a → v = spec_Vc_with_min f_c bw d lc a) ∧
    (∀ a, Av_min = some a → a < 0 →
      v = spec_Vc_no_min f_c bw d ls lc Av_min) ∧
    (Av_min = none → v = spec_Vc_no_min f_c bw d ls lc Av_min) := by
  refine ⟨?_, ?_, ?_⟩
  · rintro a rfl ha
    obtain ⟨-, -, hv⟩ := Vc_branch_some_nonneg_elim ha h
    rw [hv]
    unfold spec_Vc_with_min
    rfl
  · rintro a rfl ha
    obtain ⟨-, -, hv⟩ := Vc_branch_some_neg_elim ha h
    rw [hv]
    unfold spec_Vc_no_min spec_rho_w
    dsimp only
    rw [if_pos (ne_of_lt ha)]
  · rintro rfl
    obtain ⟨-, hv⟩ := Vc_branch_none_elim h
    rw [hv]
    unfold spec_Vc_no_min spec_rho_w
    rfl

/-- Witness for C2 at a concrete input with Av_min supplied. -/
theorem C2_branch_selection_witness :
    Vc_branch 4000 12 20 (4 / 5) 1 (some 1) =
      .ok (max (2 * 1 * Real.sqrt 4000 * 12 * 20)
        (8 * 1 * (((1 : ℝ) / (12 * 20)) ^ ((1 : ℝ) / 3)) *
          Real.sqrt 4000 * 12 * 20)) ∧
    max (2 * 1 * Real.sqrt 4000 * 12 * 20)
        (8 * 1 * (((1 : ℝ) / (12 * 20)) ^ ((1 : ℝ) / 3)) *
          Real.sqrt 4000 * 12 * 20) =
      spec_Vc_with_min 4000 12 20 1 1 := by
  have heval : Vc_branch 4000 12 20 (4 / 5) 1 (some 1) =
      .ok (max (2 * 1 * Real.sqrt 4000 * 12 * 20)
        (8 * 1 * (((1 : ℝ) / (12 * 20)) ^ ((1 : ℝ) / 3)) *
          Real.sqrt 4000 * 12 * 20)) :=
    Vc_branch_some_nonneg (by norm_num) (by norm_num) (by norm_num)
      (by norm_num)
  exact ⟨heval,
    (C2_branch_selection 4000 12 20 (4 / 5) 1 (some 1) _ heval).1 1 rfl
      (by norm_num)⟩

/-- C4 counterexample: the size-effect factor does not approach 1 for large
d; it is eventually below one half (indeed it tends to 0), so it does not
tend to 1. -/
theorem C4_counterexample :
    ¬ Filter.Tendsto lambda_s_val Filter.atTop (nhds 1) := by
  intro h
  have h2 : ∀ᶠ x : ℝ in Filter.atTop, (1 : ℝ) / 2 < lambda_s_val x :=
    h.eventually (eventually_gt_nhds (by norm_num))
  have h3 : ∀ᶠ x : ℝ in Filter.atTop, (190 : ℝ) ≤ x :=
    Filter.eventually_ge_atTop 190
  obtain ⟨x, hx2, hx3⟩ := (h2.and h3).exists
  have hb : lambda_s_val x ≤ Real.sqrt (1 / 10) := by
    rw [lambda_s_val_eq_sqrt (by linarith)]
    apply Real.sqrt_le_sqrt
    rw [div_le_div_iff₀ (by linarith) (by norm_num)]
    linarith
  have hs : Real.sqrt (1 / 10) < 1 / 2 := by
    rw [Real.sqrt_lt' (by norm_num)]
    norm_num
  linarith

/-- The size-effect value tends to 0 as d grows without bound: the argument
2 / (1 + d / 10) of the square root tends to 0, and the value is squeezed
between 0 and that square root. -/
lemma lambda_s_val_tendsto_zero :
    Filter.Tendsto lambda_s_val Filter.atTop (nhds 0) := by
  have hden : Filter.Tendsto (fun d : ℝ => 1 + d / 10) Filter.atTop
      Filter.atTop :=
    Filter.tendsto_atTop_add_const_left Filter.atTop 1
      (Filter.Tendsto.atTop_div_const (by norm_num) Filter.tendsto_id)
  have hq : Filter.Tendsto (fun d : ℝ => 2 / (1 + d / 10)) Filter.atTop
      (nhds 0) := Filter.Tendsto.const_div_atTop hden 2
  have hs : Filter.Tendsto (fun d : ℝ => Real.sqrt (2 / (1 + d / 10)))
      Filter.atTop (nhds 0) := by
    have h2 := hq.sqrt
    rwa [Real.sqrt_zero] at h2
  refine tendsto_of_tendsto_of_tendsto_of_le_of_le tendsto_const_nhds hs
    ?_ ?_
  · exact fun d => le_min (Real.sqrt_nonneg _) zero_le_one
  · exact fun d => min_le_left _ _

/-- C4 (amended): for every d > 0, the lambda_s field returned by
calc_shear_strength equals min(sqrt(2 / (1 + d/10)), 1.0); that value is
always in (0, 1], equals 1 for every 0 < d <= 10, and strictly decreases as
d increases beyond 10; it does not approach 1 for large d but tends to 0;
d = 10 gives 1 and d = 40 gives a value between 0.632 and 0.633. -/
theorem C4_size_effect_amended :
    (∀ f_c bw d Nu lc : ℝ, ∀ Ag Av_min phi : Option ℝ, ∀ r : ShearResult,
      0 < d →
      calc_shear_strength f_c bw d Nu Ag Av_min lc phi = .ok r →
      r.lambda_s = min (Real.sqrt (2 / (1 + d / 10))) 1) ∧
    (∀ d : ℝ, 0 < d → 0 < lambda_s_val d ∧ lambda_s_val d ≤ 1) ∧
    (∀ d : ℝ, 0 < d → d ≤ 10 → lambda_s_val d = 1) ∧
    (∀ d1 d2 : ℝ, 10 ≤ d1 → d1 < d2 →
      lambda_s_val d2 < lambda_s_val d1) ∧
    lambda_s_val 10 = 1 ∧
    (632 / 1000 < lambda_s_val 40 ∧ lambda_s_val 40 < 633 / 1000) ∧
    Filter.Tendsto lambda_s_val Filter.atTop (nhds 0) := by
  refine ⟨?_, ?_, ?_, ?_, ?_, lambda_s_val_forty_bounds,
    lambda_s_val_tendsto_zero⟩
  · intro f_c bw d Nu lc Ag Av_min phi r hd h
    obtain ⟨-, -, ls, Vc0, hse, -, rfl⟩ := calc_ok_elim h
    rw [size_effect_ok hd] at hse
    have hls : lambda_s_val d = ls := (Except.ok.injEq _ _).mp hse
    show ls = min (Real.sqrt (2 / (1 + d / 10))) 1
    rw [← hls]
    rfl
  · exact fun d hd => ⟨lambda_s_val_pos hd, lambda_s_val_le_one d⟩
  · exact fun d hd0 hd => lambda_s_val_eq_one hd0 hd
  · exact fun d1 d2 h1 h2 => lambda_s_val_strict_anti h1 h2
  · exact lambda_s_val_eq_one (by norm_num) le_rfl

/-- Witness for C4 at concrete inputs. -/
theorem C4_size_effect_amended_witness :
    (0 : ℝ) < 20 ∧
    (⟨0, 0, 0.75, lambda_s_val 20⟩ : ShearResult).lambda_s =
      min (Real.sqrt (2 / (1 + 20 / 10))) 1 ∧
    (10 : ℝ) ≤ 10 ∧ (10 : ℝ) < 40 ∧ lambda_s_val 40 < lambda_s_val 10 :=
  ⟨by norm_num,
    C4_size_effect_amended.1 4000 12 20 0 1 none none none _ (by norm_num)
      calc_ref_ok,
    by norm_num, by norm_num,
    C4_size_effect_amended.2.2.2.1 10 40 le_rfl (by norm_num)⟩

/-! ### Lemmas about Ec and f_r -/

lemma Ec_in_range {f_c w_c : ℝ} (hf : 0 ≤ f_c) (hw1 : 90 ≤ w_c)
    (hw2 : w_c ≤ 160) :
    Ec f_c w_c = .ok (33 * w_c ^ (1.5 : ℝ) * Real.sqrt f_c) := by
  unfold Ec
  rw [if_pos ⟨hw1, hw2⟩, pysqrt_ok hf]

lemma Ec_out_range {f_c w_c : ℝ} (hf : 0 ≤ f_c)
    (hw : ¬(90 ≤ w_c ∧ w_c ≤ 160)) :
    Ec f_c w_c = .ok (57000 * Real.sqrt f_c) := by
  unfold Ec
  rw [if_neg hw, pysqrt_ok hf]

lemma Ec_neg {f_c w_c : ℝ} (hf : f_c < 0) :
    Ec f_c w_c = .error .mathDomainError := by
  unfold Ec
  by_cases hw : 90 ≤ w_c ∧ w_c ≤ 160
  · rw [if_pos hw, pysqrt_err hf]
  · rw [if_neg hw, pysqrt_err hf]

lemma f_r_ok {f_c lambda_ : ℝ} (hf : 0 ≤ f_c) :
    f_r f_c lambda_ = .ok (lambda_ * 7.5 * Real.sqrt f_c) := by
  unfold f_r
  rw [pysqrt_ok hf]

lemma f_r_neg {f_c lambda_ : ℝ} (hf : f_c < 0) :
    f_r f_c lambda_ = .error .mathDomainError := by
  unfold f_r
  rw [pysqrt_err hf]

/-- C7 counterexample: for a negative compressive strength the primitives do
fail (math.sqrt raises a ValueError, the math domain error); they do not
return a degenerate value. -/
theorem C7_counterexample :
    Ec (-1) 145 = .error .mathDomainError ∧
    f_r (-1) 1 = .error .mathDomainError :=
  ⟨Ec_neg (by norm_num), f_r_neg (by norm_num)⟩

/-- C7 (amended): for f_c = 0, Ec and f_r return the degenerate value 0
without failing; for f_c < 0 they fail with the math domain error raised by
math.sqrt (no NaN is produced). -/
theorem C7_degenerate_amended :
    (∀ w_c : ℝ, Ec 0 w_c = .ok 0) ∧
    (∀ lambda_ : ℝ, f_r 0 lambda_ = .ok 0) ∧
    (∀ f_c w_c : ℝ, f_c < 0 → Ec f_c w_c = .error .mathDomainError) ∧
    (∀ f_c lambda_ : ℝ, f_c < 0 →
      f_r f_c lambda_ = .error .mathDomainError) := by
  refine ⟨?_, ?_, fun f_c w_c hf => Ec_neg hf, fun f_c l hf => f_r_neg hf⟩
  · intro w_c
    by_cases hw : 90 ≤ w_c ∧ w_c ≤ 160
    · rw [Ec_in_range le_rfl hw.1 hw.2, Real.sqrt_zero, mul_zero]
    · rw [Ec_out_range le_rfl hw, Real.sqrt_zero, mul_zero]
  · intro lambda_
    rw [f_r_ok le_rfl, Real.sqrt_zero, mul_zero]

/-- Witness for C7 at a concrete input. -/
theorem C7_degenerate_amended_witness :
    (-4 : ℝ) < 0 ∧ Ec (-4) 145 = .error .mathDomainError :=
  ⟨by norm_num, C7_degenerate_amended.2.2.1 (-4) 145 (by norm_num)⟩

/-- C8: for positive f_c, Ec uses 33 * w_c^1.5 * sqrt(f_c) when
90 <= w_c <= 160 and 57000 * sqrt(f_c) otherwise; on the in-range branch the
value is strictly increasing in both f_c and w_c, and on the out-of-range
branch it does not depend on w_c. -/
theorem C8_Ec_formula :
    (∀ f_c w_c : ℝ, 0 < f_c → 90 ≤ w_c → w_c ≤ 160 →
      Ec f_c w_c = .ok (33 * w_c ^ (1.5 : ℝ) * Real.sqrt f_c)) ∧
    (∀ f_c w_c : ℝ, 0 < f_c → ¬(90 ≤ w_c ∧ w_c ≤ 160) →
      Ec f_c w_c = .ok (57000 * Real.sqrt f_c)) ∧
    (∀ f1 f2 w v1 v2 : ℝ, 0 < f1 → f1 < f2 → 90 ≤ w → w ≤ 160 →
      Ec f1 w = .ok v1 → Ec f2 w = .ok v2 → v1 < v2) ∧
    (∀ f w1 w2 v1 v2 : ℝ, 0 < f → 90 ≤ w1 → w1 < w2 → w2 ≤ 160 →
      Ec f w1 = .ok v1 → Ec f w2 = .ok v2 → v1 < v2) ∧
    (∀ f w1 w2 v1 v2 : ℝ, 0 < f → ¬(90 ≤ w1 ∧ w1 ≤ 160) →
      ¬(90 ≤ w2 ∧ w2 ≤ 160) → Ec f w1 = .ok v1 → Ec f w2 = .ok v2 →
      v1 = v2) := by
  refine ⟨?_, ?_, ?_, ?_, ?_⟩
  · exact fun f_c w_c hf hw1 hw2 => Ec_in_range (le_of_lt hf) hw1 hw2
  · exact fun f_c w_c hf hw => Ec_out_range (le_of_lt hf) hw
  · intro f1 f2 w v1 v2 hf1 h12 hw1 hw2 h1 h2
    rw [Ec_in_range (le_of_lt hf1) hw1 hw2] at h1
    rw [Ec_in_range (by linarith) hw1 hw2] at h2
    rw [← (Except.ok.injEq _ _).mp h1, ← (Except.ok.injEq _ _).mp h2]
    have hw0 : (0 : ℝ) < w := lt_of_lt_of_le (by norm_num) hw1
    exact mul_lt_mul_of_pos_left
      (Real.sqrt_lt_sqrt (le_of_lt hf1) h12)
      (mul_pos (by norm_num) (Real.rpow_pos_of_pos hw0 _))
  · intro f w1 w2 v1 v2 hf hw1 h12 hw2 h1 h2
    rw [Ec_in_range (le_of_lt hf) hw1 (by linarith)] at h1
    rw [Ec_in_range (le_of_lt hf) (by linarith) hw2] at h2
    rw [← (Except.ok.injEq _ _).mp h1, ← (Except.ok.injEq _ _).mp h2]
    have hpow : w1 ^ (1.5 : ℝ) < w2 ^ (1.5 : ℝ) :=
      Real.rpow_lt_rpow (by linarith) h12 (by norm_num)
    exact mul_lt_mul_of_pos_right
      (mul_lt_mul_of_pos_left hpow (by norm_num))
      (Real.sqrt_pos.mpr hf)
  · intro f w1 w2 v1 v2 hf hw1 hw2 h1 h2
    rw [Ec_out_range (le_of_lt hf) hw1] at h1
    rw [Ec_out_range (le_of_lt hf) hw2] at h2
    rw [← (Except.ok.injEq _ _).mp h1, ← (Except.ok.injEq _ _).mp h2]

/-- Witness for C8 at concrete inputs. -/
theorem C8_Ec_formula_witness :
    (0 : ℝ) < 4000 ∧ (90 : ℝ) ≤ 145 ∧ (145 : ℝ) ≤ 160 ∧
    Ec 4000 145 = .ok (33 * (145 : ℝ) ^ (1.5 : ℝ) * Real.sqrt 4000) :=
  ⟨by norm_num, by norm_num, by norm_num,
    C8_Ec_formula.1 4000 145 (by norm_num) (by norm_num) (by norm_num)⟩

/-- C9: fyd and fud fail exactly when the strength is nonpositive or the
reduction factor is below 1, and otherwise return exactly the quotient
strength / gamma_s; as Except-valued functions they return no partial
result on failure. -/
theorem C9_design_strengths :
    (∀ fy g : ℝ, (∃ e, fyd fy g = .error e) ↔ (fy ≤ 0 ∨ g < 1)) ∧
    (∀ fy g : ℝ, 0 < fy → 1 ≤ g → fyd fy g = .ok (fy / g)) ∧
    (∀ fu g : ℝ, (∃ e, fud fu g = .error e) ↔ (fu ≤ 0 ∨ g < 1)) ∧
    (∀ fu g : ℝ, 0 < fu → 1 ≤ g → fud fu g = .ok (fu / g)) := by
  refine ⟨?_, ?_, ?_, ?_⟩
  · intro fy g
    by_cases h1 : fy ≤ 0
    · simp only [fyd, if_pos h1]
      exact iff_of_true ⟨_, rfl⟩ (Or.inl h1)
    · by_cases h2 : g < 1
      · simp only [fyd, if_neg h1, if_pos h2]
        exact iff_of_true ⟨_, rfl⟩ (Or.inr h2)
      · simp only [fyd, if_neg h1, if_neg h2]
        apply iff_of_false
        · rintro ⟨e, he⟩; exact absurd he (by simp)
        · rintro (h | h); exacts [h1 h, h2 h]
  · intro fy g hfy hg
    unfold fyd
    rw [if_neg (not_le.mpr hfy), if_neg (not_lt.mpr hg)]
  · intro fu g
    by_cases h1 : fu ≤ 0
    · simp only [fud, if_pos h1]
      exact iff_of_true ⟨_, rfl⟩ (Or.inl h1)
    · by_cases h2 : g < 1
      · simp only [fud, if_neg h1, if_pos h2]
        exact iff_of_true ⟨_, rfl⟩ (Or.inr h2)
      · simp only [fud, if_neg h1, if_neg h2]
        apply iff_of_false
        · rintro ⟨e, he⟩; exact absurd he (by simp)
        · rintro (h | h); exacts [h1 h, h2 h]
  · intro fu g hfu hg
    unfold fud
    rw [if_neg (not_le.mpr hfu), if_neg (not_lt.mpr hg)]

/-- Witness for C9 at a concrete input. -/
theorem C9_design_strengths_witness :
    (0 : ℝ) < 60000 ∧ (1 : ℝ) ≤ 1.15 ∧
    fyd 60000 1.15 = .ok (60000 / 1.15) :=
  ⟨by norm_num, by norm_num,
    C9_design_strengths.2.1 60000 1.15 (by norm_num) (by norm_num)⟩

/-! ### Facade override behaviour -/

/-- C5 counterexample: the Overridden state is not absorbing for eps_cu.
After explicitly setting eps_cu to 0, the next read does not return the
stored override 0: the or-idiom of the getter treats the stored 0.0 as
falsy, recomputes from fc, and overwrites the override. -/
theorem C5_counterexample :
    (eps_cu_read 4000 (eps_cu_write 0 none)).1 ≠ 0 ∧
    (eps_cu_read 4000 (eps_cu_write 0 none)).1 = 3 / 1000 := by
  have h : eps_cu_read 4000 (eps_cu_write 0 none) =
      (3 / 1000, some (3 / 1000)) := by
    unfold eps_cu_read eps_cu_write eps_cu_model
    dsimp only
    rw [if_pos rfl]
    norm_num
  rw [h]
  norm_num

/-- C5 (amended): for Ec and fct every explicit override is absorbing:
after a write of v, a read returns the stored abs(v) and leaves the backing
field unchanged, for every fc (so no recomputation from fc can occur, and
by induction every subsequent read behaves the same).  For eps_cu the same
holds for every override v with v nonzero; an override of 0 is falsy for
the or-idiom of the getter and is overwritten by recomputation on the next
read. -/
theorem C5_override_absorbing :
    (∀ fc v : ℝ, ∀ s : Cell,
      Ec_read fc (Ec_write v s) = .ok (|v|, Ec_write v s)) ∧
    (∀ fc v : ℝ, ∀ s : Cell,
      fct_read fc (fct_write v s) = (|v|, fct_write v s)) ∧
    (∀ fc v : ℝ, ∀ s : Cell, v ≠ 0 →
      eps_cu_read fc (eps_cu_write v s) = (v, eps_cu_write v s)) := by
  refine ⟨fun fc v s => rfl, fun fc v s => rfl, fun fc v s hv => ?_⟩
  unfold eps_cu_read eps_cu_write
  dsimp only
  rw [if_neg hv]

/-- Witness for C5 at a concrete input. -/
theorem C5_override_absorbing_witness :
    ((2 : ℝ) ≠ 0) ∧
    eps_cu_read 4000 (eps_cu_write 2 none) = (2, eps_cu_write 2 none) :=
  ⟨by norm_num, C5_override_absorbing.2.2 4000 2 none (by norm_num)⟩

/-- C6 counterexample: the eps_cu setter does not apply abs.  After setting
eps_cu to -1/1000 the stored value and every subsequent read is -1/1000,
not the positive 1/1000 that the claim asserts. -/
theorem C6_counterexample :
    eps_cu_write (-(1 / 1000)) none = some (-(1 / 1000)) ∧
    (eps_cu_read 4000 (eps_cu_write (-(1 / 1000)) none)).1 = -(1 / 1000) ∧
    (-(1 / 1000) : ℝ) ≠ |(-(1 / 1000) : ℝ)| := by
  refine ⟨rfl, ?_, ?_⟩
  · have h : eps_cu_read 4000 (eps_cu_write (-(1 / 1000)) none) =
        (-(1 / 1000), some (-(1 / 1000))) := by
      unfold eps_cu_read eps_cu_write
      dsimp only
      rw [if_neg (by norm_num : ¬(-(1 / 1000 : ℝ)) = 0)]
    rw [h]
  · rw [abs_neg, abs_of_pos (by norm_num : (0 : ℝ) < 1 / 1000)]
    norm_num

/-- C6 (amended): the Ec and fct setters store abs(value), so a negative
override v reads back as -v on every subsequent read; the eps_cu setter
stores the value unchanged, so a negative eps_cu override stays negative. -/
theorem C6_override_abs :
    (∀ v : ℝ, ∀ s : Cell, Ec_write v s = some |v| ∧
      fct_write v s = some |v| ∧ eps_cu_write v s = some v) ∧
    (∀ fc v : ℝ, ∀ s : Cell, v < 0 →
      Ec_read fc (Ec_write v s) = .ok (-v, some (-v)) ∧
      fct_read fc (fct_write v s) = (-v, some (-v)) ∧
      eps_cu_read fc (eps_cu_write v s) = (v, some v)) := by
  refine ⟨fun v s => ⟨rfl, rfl, rfl⟩, fun fc v s hv => ?_⟩
  have habs : |v| = -v := abs_of_neg hv
  refine ⟨?_, ?_, ?_⟩
  · show Except.ok (|v|, some |v|) = Except.ok (-v, some (-v))
    rw [habs]
  · show (|v|, some |v|) = (-v, some (-v))
    rw [habs]
  · unfold eps_cu_read eps_cu_write
    dsimp only
    rw [if_neg (ne_of_lt hv)]

/-- Witness for C6 at a concrete input. -/
theorem C6_override_abs_witness :
    ((-5 : ℝ) < 0) ∧ Ec_read 4000 (Ec_write (-5) none) = .ok (5, some 5) := by
  have h := (C6_override_abs.2 4000 (-5) none (by norm_num)).1
  norm_num at h
  exact ⟨by norm_num, h⟩
